import Mathlib

/-!
Verification of the Information Architect core of the `invysia-design-engine`
repository: the metadata/data-splitting callback
(`backend/daedalus/subagents/information_architect_agent.py`,
`extract_metadata_callback`) and the slide/dataset partitioning and
navigation-axis planning stage.  The callback is embedded directly from the
Python source; the partitioning algorithm is delegated by the source to a
language model through prompt text only (`INFORMATION_ARCHITECT_INSTRUCTION`),
so its executable behaviour is modelled from the specification (spec.md §4.2),
with the axis-consistency table taken from the prompt text itself.
-/

/-- JSON values, the result type of `json.loads`.  Numbers are modelled as
integers; the claims under study never depend on numeric values. -/
inductive JValue where
  | null : JValue
  | bool : Bool → JValue
  | num : Int → JValue
  | str : String → JValue
  | arr : List JValue → JValue
  | obj : List (String × JValue) → JValue

/-- Whether a JSON value is `null` (parsed to Python `None`, so that the
source's `data_content is not None` test fails on it). -/
def JValue.isNull : JValue → Bool
  | JValue.null => true
  | _ => false

mutual

/-- Model of `json.dumps` on a `JValue` (default separators; escaping of
special characters inside strings is not modelled). -/
def dumps : JValue → String
  | JValue.null => "null"
  | JValue.bool true => "true"
  | JValue.bool false => "false"
  | JValue.num n => toString n
  | JValue.str s => "\"" ++ s ++ "\""
  | JValue.arr vs => "[" ++ dumpsArr vs ++ "]"
  | JValue.obj kvs => "\x7b" ++ dumpsObj kvs ++ "\x7d"

/-- Serialize the elements of a JSON array, comma-separated. -/
def dumpsArr : List JValue → String
  | [] => ""
  | [v] => dumps v
  | v :: vs => dumps v ++ ", " ++ dumpsArr vs

/-- Serialize the members of a JSON object, comma-separated. -/
def dumpsObj : List (String × JValue) → String
  | [] => ""
  | [(k, v)] => "\"" ++ k ++ "\": " ++ dumps v
  | (k, v) :: kvs => "\"" ++ k ++ "\": " ++ dumps v ++ ", " ++ dumpsObj kvs

end

/-- A message part (`google.genai.types.Part`): an optional text payload. -/
structure MPart where
  text : Option String
deriving DecidableEq, Repr

/-- A message (`google.genai.types.Content`): a role and a list of parts. -/
structure MContent where
  role : String
  parts : List MPart
deriving DecidableEq, Repr

/-- The mutable request handed to a before-model callback
(`google.adk.models.LlmRequest`): its list of contents. -/
structure LlmRequest where
  contents : List MContent
deriving DecidableEq, Repr

/-- Stand-in for `google.adk.models.LlmResponse`; the callback under study
never constructs one, it only ever returns `None`. -/
inductive LlmResponse where
  | mk : LlmResponse
deriving DecidableEq, Repr

/-- Session state (`callback_context.state`): a key-value store of JSON
values. -/
def SessionState : Type := String → Option JValue

/-- A single store `state[key] = value`. -/
def stateSet (st : SessionState) (k : String) (v : JValue) : SessionState :=
  fun q => if q = k then some v else st q

/-- The source's part scan: `for part in last_content.parts: if
hasattr(part, 'text') and part.text: user_text = part.text; break`.  A part
with `text = None` or empty text is falsy and skipped. -/
def firstText : List MPart → Option String
  | [] => none
  | p :: ps =>
    match p.text with
    | some t => if t = "" then firstText ps else some t
    | none => firstText ps

/-- The source's extraction loop: `for key, value in input_json.items(): if
key == "data": data_content = value else: state[key] = value`.  The
accumulator's second component models the Python variable `data_content`,
which is `None` exactly when no `"data"` member was seen or the last one seen
was JSON `null`. -/
def extractLoop (st : SessionState) (dc : Option JValue) :
    List (String × JValue) → SessionState × Option JValue
  | [] => (st, dc)
  | (k, v) :: rest =>
    if k = "data" then
      extractLoop st (if v.isNull then none else some v) rest
    else
      extractLoop (stateSet st k v) dc rest

/-- The result of one callback invocation: the returned value together with
the session state and the (possibly mutated) request. -/
structure CallbackResult where
  response : Option LlmResponse
  state : SessionState
  request : LlmRequest

/-- The source's in-place update `llm_request.contents[-1] = c` (only reached
when `contents` is non-empty). -/
def setLast (req : LlmRequest) (c : MContent) : LlmRequest :=
  ⟨req.contents.dropLast ++ [c]⟩

/-- Shallow embedding of `extract_metadata_callback`
(information_architect_agent.py, lines 17-80).  `parse` models `json.loads`
on the message text: `none` for a `json.JSONDecodeError`, `some v` for a
successful parse. -/
def extract_metadata_callback (parse : String → Option JValue)
    (st : SessionState) (req : LlmRequest) : CallbackResult :=
  match req.contents.getLast? with
  | none => ⟨none, st, req⟩
  | some last =>
    if last.role ≠ "user" ∨ last.parts = [] then ⟨none, st, req⟩
    else
      match firstText last.parts with
      | none => ⟨none, st, req⟩
      | some text =>
        match parse text with
        | none => ⟨none, st, req⟩
        | some (JValue.obj kvs) =>
          let res := extractLoop st none kvs
          match res.2 with
          | none => ⟨none, res.1, req⟩
          | some v =>
            ⟨none, res.1, setLast req ⟨"user", [⟨some (dumps v)⟩]⟩⟩
        | some _ => ⟨none, st, req⟩

/-- The value of the last occurrence of key `k` in an association list (the
value a Python dict iteration leaves for `k` under repeated assignment). -/
def lastVal : List (String × JValue) → String → Option JValue
  | [], _ => none
  | (q, v) :: rest, k =>
    match lastVal rest k with
    | some w => some w
    | none => if q = k then some v else none

/-- The final Python `data_content` as a function of the parsed members: the
last `"data"` value, with JSON `null` collapsed to `None`. -/
def dataContent (kvs : List (String × JValue)) : Option JValue :=
  match lastVal kvs "data" with
  | some v => if v.isNull then none else some v
  | none => none

/-- Modelled from the spec: one content object of the partitioner's input
payload, abstracted to the attributes the planning rules read — the optional
`requires_fullscreen` flag (absent = false) and the optional `sequence`
ordering hint (spec.md §3, §6). -/
structure DObj where
  requires_fullscreen : Bool
  sequence : Option Int
deriving DecidableEq, Repr

/-- Modelled from the spec: a dataset value is an object or a list of
objects (spec.md §3, §6). -/
inductive DValue where
  | obj : DObj → DValue
  | list : List DObj → DValue
deriving DecidableEq, Repr

/-- Modelled from the spec: the reduced data payload handed to the
partitioner — a mapping of dataset key to object or list (spec.md §4.2). -/
abbrev PartInput : Type := List (String × DValue)

/-- Modelled from the spec: an independently assignable planning unit — a
dataset key (with index sub-key for a list element), its fullscreen flag and
its sequence hint (spec.md §3, glossary). -/
structure DUnit where
  name : String
  fullscreen : Bool
  seq : Option Int
deriving DecidableEq, Repr

/-- Modelled from the spec: the units of a list dataset — each element
inherits the list's key with an index suffix `key[i]` (spec.md §3,
§4.2 step 1). -/
def listUnits (k : String) : Nat → List DObj → List DUnit
  | _, [] => []
  | i, o :: os =>
    ⟨k ++ "[" ++ toString i ++ "]", o.requires_fullscreen, o.sequence⟩ ::
      listUnits k (i + 1) os

/-- Modelled from the spec: the units of one input entry (spec.md §4.2
step 1). -/
def unitsOfEntry : String × DValue → List DUnit
  | (k, DValue.obj o) => [⟨k, o.requires_fullscreen, o.sequence⟩]
  | (k, DValue.list os) => listUnits k 0 os

/-- Modelled from the spec: the enumeration of all assignable units of the
input (spec.md §4.2 step 1). -/
def unitsOf (input : PartInput) : List DUnit :=
  (input.map unitsOfEntry).flatten

/-- Modelled from the spec: the sequencing order on units — units with a
defined `sequence` in non-decreasing order, units without one unconstrained
and placed after all sequenced units (spec.md §4.2 step 4). -/
def keyLe (u v : DUnit) : Bool :=
  match u.seq, v.seq with
  | some a, some b => decide (a ≤ b)
  | some _, none => true
  | none, some _ => false
  | none, none => true

/-- The sequencing order as a relation, for sorting. -/
def seqOrd (u v : DUnit) : Prop := keyLe u v = true

instance : DecidableRel seqOrd := fun u v =>
  inferInstanceAs (Decidable (keyLe u v = true))

instance : IsTotal DUnit seqOrd where
  total u v := by
    unfold seqOrd keyLe
    rcases hu : u.seq with _ | a <;> rcases hv : v.seq with _ | b <;>
      first
        | (simp; done)
        | (simp; omega)

instance : IsTrans DUnit seqOrd where
  trans u v w huv hvw := by
    unfold seqOrd keyLe at *
    rcases hu : u.seq with _ | a <;> rcases hv : v.seq with _ | b <;>
      rcases hw : w.seq with _ | c <;>
      first
        | (simp_all; done)
        | (simp_all; omega)

/-- Modelled from the spec: the units of the input arranged in a sequencing-
compatible order (spec.md §4.2 step 4; one deterministic representative of
the permitted orders). -/
def planUnits (input : PartInput) : List DUnit :=
  List.insertionSort seqOrd (unitsOf input)

/-- Modelled from the spec: push one unit onto the front of a slide
grouping.  A fullscreen unit always opens a singleton slide of its own; a
non-fullscreen unit joins the following slide when that slide is
non-fullscreen, and otherwise opens a new slide (spec.md §4.2 steps 2-3). -/
def segPush (u : DUnit) (gs : List (List DUnit)) : List (List DUnit) :=
  if u.fullscreen then [u] :: gs
  else
    match gs with
    | [] => [[u]]
    | [] :: gs2 => [u] :: gs2
    | (v :: vs) :: gs2 =>
      if v.fullscreen then [u] :: (v :: vs) :: gs2
      else (u :: v :: vs) :: gs2

/-- Modelled from the spec: group an ordered unit list into slides — every
fullscreen unit becomes a singleton slide, maximal runs of consecutive
non-fullscreen units are combined in encounter order (spec.md §4.2
steps 2-3). -/
def segmentUnits (l : List DUnit) : List (List DUnit) :=
  l.foldr segPush []

/-- Modelled from the spec: the slide groups of the plan for an input
(spec.md §4.2 steps 1-4). -/
def planGroups (input : PartInput) : List (List DUnit) :=
  segmentUnits (planUnits input)

/-- The navigation axes (spec.md §3; prompt lines 109-116). -/
inductive Axis where
  | vertical
  | horizontal
  | linear
deriving DecidableEq, Repr

/-- The axis-consistency table exactly as written in the source prompt
(INFORMATION_ARCHITECT_INSTRUCTION, lines 112-116): vertical pairs with
horizontal or linear, horizontal pairs with vertical only, linear pairs with
horizontal or vertical. -/
def allowedSecondary : Axis → List Axis
  | Axis.vertical => [Axis.horizontal, Axis.linear]
  | Axis.horizontal => [Axis.vertical]
  | Axis.linear => [Axis.horizontal, Axis.vertical]

/-- Whether an axis pair is allowed by the source prompt's consistency
rules. -/
def axisPairOk (p s : Axis) : Bool := decide (s ∈ allowedSecondary p)

/-- The six-pair axis table as the spec's §4.2 table states it (row
`horizontal | vertical, linear` included), written from the spec's words for
comparison with the source's table. -/
def specTableAxisPairOk (p s : Axis) : Bool :=
  match p, s with
  | Axis.vertical, Axis.horizontal => true
  | Axis.vertical, Axis.linear => true
  | Axis.horizontal, Axis.vertical => true
  | Axis.horizontal, Axis.linear => true
  | Axis.linear, Axis.horizontal => true
  | Axis.linear, Axis.vertical => true
  | _, _ => false

/-- The three primary-axis candidates. -/
def axisList : List Axis := [Axis.vertical, Axis.horizontal, Axis.linear]

/-- Pick an element of a non-empty axis list by reducing a number modulo its
length. -/
def pick (l : List Axis) (n : Nat) : Axis := l.getD (n % l.length) Axis.vertical

/-- Modelled from the spec: the randomized axis choice — a primary axis
selected from the three candidates by the call's entropy (`seed`), and a
secondary axis selected among those the source prompt's consistency table
allows for it (spec.md §4.2 steps 5-6; prompt lines 112-116). -/
def chooseAxes (seed : Nat) : Axis × Axis :=
  let p := pick axisList seed
  (p, pick (allowedSecondary p) (seed / 3))

/-- One slide of the output plan: a slide identifier and the dataset keys
assigned to it (prompt lines 120-123). -/
structure Slide where
  slide_id : String
  datasets : List String
deriving DecidableEq, Repr

/-- The plan returned by the partitioner (prompt lines 120-127). -/
structure Plan where
  slide_mappings : List Slide
  primary_axis : Axis
  secondary_axis : Axis
  success : Bool
  error : Option String
deriving DecidableEq, Repr

/-- Slides from groups, with identifiers `slide1`, `slide2`, ... assigned
monotonically from the given start index (prompt lines 122-123, example
lines 133-140). -/
def makeSlidesFrom : Nat → List (List DUnit) → List Slide
  | _, [] => []
  | i, g :: gs =>
    ⟨"slide" ++ toString i, g.map DUnit.name⟩ :: makeSlidesFrom (i + 1) gs

/-- Slides from groups, numbered from 1. -/
def makeSlides (groups : List (List DUnit)) : List Slide :=
  makeSlidesFrom 1 groups

/-- Modelled from the spec: the slide/dataset partitioner and navigation
axis selector (spec.md §4.2; the source delegates this computation to a
language model through prompt text, so the algorithm is reified from the
spec, `seed` standing for the call-local entropy of step 6).  Validation
happens before returning: when the required slides cannot fit under the
capacity cap the partitioner returns `success = false` with a populated
`error` and no slides (spec.md §4.2 step 7). -/
def partitionPlan (seed : Nat) (input : PartInput) : Plan :=
  let groups := planGroups input
  let axes := chooseAxes seed
  if 10 ≤ groups.length then
    { slide_mappings := []
      primary_axis := axes.1
      secondary_axis := axes.2
      success := false
      error := some "capacity exceeded: the required slides cannot fit under the maximum of 9" }
  else
    { slide_mappings := makeSlides groups
      primary_axis := axes.1
      secondary_axis := axes.2
      success := true
      error := none }

/-- The number of fullscreen-constrained units of an input; each of them
requires a singleton slide of its own (spec.md §4.2 step 2). -/
def fullscreenCount (input : PartInput) : Nat :=
  ((unitsOf input).filter (fun u => u.fullscreen)).length

/-- Modelled from the spec: the guarded core planning step — it returns an
error plan rather than silently proceeding when the required upstream state
(the reduced data payload) is absent (spec.md §5). -/
def corePlanningStep (seed : Nat) : Option PartInput → Plan
  | none =>
    { slide_mappings := []
      primary_axis := (chooseAxes seed).1
      secondary_axis := (chooseAxes seed).2
      success := false
      error := some "missing required upstream state: reduced data payload absent" }
  | some input => partitionPlan seed input

/-- A concrete three-dataset payload: two sequenced objects, the second of
which requires fullscreen, and one unsequenced object. -/
def sampleInput : PartInput :=
  [("intro", DValue.obj ⟨false, some 1⟩),
   ("gallery", DValue.obj ⟨true, some 2⟩),
   ("outro", DValue.obj ⟨false, none⟩)]

/-- A payload whose ten fullscreen list elements alone demand ten singleton
slides, exceeding the capacity cap. -/
def overloadedInput : PartInput :=
  [("mega", DValue.list (List.replicate 10 ⟨true, none⟩))]

/-- A concrete parse table standing for `json.loads` on three fixed message
texts: an object with metadata and data, an object whose `data` is JSON
`null`, and a top-level array. -/
def sampleParse : String → Option JValue :=
  fun t =>
    if t = "msg_obj" then
      some (JValue.obj
        [("theme", JValue.str "dark"), ("data", JValue.obj [("a", JValue.num 1)])])
    else if t = "msg_null_data" then some (JValue.obj [("data", JValue.null)])
    else if t = "msg_arr" then some (JValue.arr [JValue.num 1])
    else none

/-- The empty session state. -/
def emptyState : SessionState := fun _ => none

/-- A request holding a single user message with the given text. -/
def reqWith (t : String) : LlmRequest := ⟨[⟨"user", [⟨some t⟩]⟩]⟩

lemma segPush_fs (u : DUnit) (gs : List (List DUnit)) (hf : u.fullscreen = true) :
    segPush u gs = [u] :: gs := by
  unfold segPush
  simp [hf]

lemma segPush_nil (u : DUnit) (hf : u.fullscreen = false) :
    segPush u [] = [[u]] := by
  unfold segPush
  simp [hf]

lemma segPush_emptyhead (u : DUnit) (gs2 : List (List DUnit)) (hf : u.fullscreen = false) :
    segPush u ([] :: gs2) = [u] :: gs2 := by
  unfold segPush
  simp [hf]

lemma segPush_newslide (u v : DUnit) (vs : List DUnit) (gs2 : List (List DUnit))
    (hf : u.fullscreen = false) (hv : v.fullscreen = true) :
    segPush u ((v :: vs) :: gs2) = [u] :: (v :: vs) :: gs2 := by
  unfold segPush
  simp [hf, hv]

lemma segPush_merge (u v : DUnit) (vs : List DUnit) (gs2 : List (List DUnit))
    (hf : u.fullscreen = false) (hv : v.fullscreen = false) :
    segPush u ((v :: vs) :: gs2) = (u :: v :: vs) :: gs2 := by
  unfold segPush
  simp [hf, hv]

lemma segmentUnits_cons (u : DUnit) (rest : List DUnit) :
    segmentUnits (u :: rest) = segPush u (segmentUnits rest) := rfl

lemma segPush_flatten (u : DUnit) (gs : List (List DUnit)) :
    (segPush u gs).flatten = u :: gs.flatten := by
  unfold segPush
  by_cases hf : u.fullscreen
  · simp [hf]
  · rcases gs with _ | ⟨g, gs2⟩
    · simp [hf]
    · rcases g with _ | ⟨v, vs⟩
      · simp [hf]
      · by_cases hv : v.fullscreen
        · simp [hf, hv]
        · simp [hf, hv]

lemma segmentUnits_flatten (l : List DUnit) : (segmentUnits l).flatten = l := by
  induction l with
  | nil => rfl
  | cons u rest ih =>
    have : segmentUnits (u :: rest) = segPush u (segmentUnits rest) := rfl
    rw [this, segPush_flatten, ih]

lemma segPush_all_or (u : DUnit) (gs : List (List DUnit))
    (ih : ∀ g ∈ gs, (∃ w, g = [w] ∧ w.fullscreen = true) ∨ ∀ v ∈ g, v.fullscreen = false) :
    ∀ g ∈ segPush u gs,
      (∃ w, g = [w] ∧ w.fullscreen = true) ∨ ∀ v ∈ g, v.fullscreen = false := by
  intro g hg
  by_cases hf : u.fullscreen
  · rw [segPush_fs u gs hf] at hg
    rcases List.mem_cons.mp hg with hg | hg
    · exact Or.inl ⟨u, hg, hf⟩
    · exact ih g hg
  · have hf0 : u.fullscreen = false := by simpa using hf
    have hunf : ∀ v ∈ [u], v.fullscreen = false := by
      intro v hv
      simp only [List.mem_singleton] at hv
      subst hv
      exact hf0
    rcases gs with _ | ⟨h, gs2⟩
    · rw [segPush_nil u hf0] at hg
      simp only [List.mem_singleton] at hg
      subst hg
      exact Or.inr hunf
    · rcases h with _ | ⟨v, vs⟩
      · rw [segPush_emptyhead u gs2 hf0] at hg
        rcases List.mem_cons.mp hg with hg | hg
        · subst hg
          exact Or.inr hunf
        · exact ih g (List.mem_cons_of_mem _ hg)
      · by_cases hv : v.fullscreen
        · rw [segPush_newslide u v vs gs2 hf0 hv] at hg
          rcases List.mem_cons.mp hg with hg | hg
          · subst hg
            exact Or.inr hunf
          · exact ih g hg
        · have hv0 : v.fullscreen = false := by simpa using hv
          rw [segPush_merge u v vs gs2 hf0 hv0] at hg
          rcases List.mem_cons.mp hg with hg | hg
          · subst hg
            refine Or.inr ?_
            have hrest := ih (v :: vs) (List.mem_cons_self _ _)
            rcases hrest with ⟨w, hw, hwf⟩ | hall
            · rw [List.cons.injEq] at hw
              rw [← hw.1] at hwf
              rw [hv0] at hwf
              exact absurd hwf (by simp)
            · intro w hw
              rcases List.mem_cons.mp hw with hw | hw
              · subst hw; exact hf0
              · exact hall w hw
          · exact ih g (List.mem_cons_of_mem _ hg)

lemma segmentUnits_all_or (l : List DUnit) :
    ∀ g ∈ segmentUnits l,
      (∃ w, g = [w] ∧ w.fullscreen = true) ∨ ∀ v ∈ g, v.fullscreen = false := by
  induction l with
  | nil => intro g hg; simp [segmentUnits] at hg
  | cons u rest ih =>
    have : segmentUnits (u :: rest) = segPush u (segmentUnits rest) := rfl
    rw [this]
    exact segPush_all_or u (segmentUnits rest) ih

lemma segPush_length_le (u : DUnit) (gs : List (List DUnit)) :
    gs.length ≤ (segPush u gs).length := by
  unfold segPush
  by_cases hf : u.fullscreen
  · simp [hf]
  · rcases gs with _ | ⟨g, gs2⟩
    · simp [hf]
    · rcases g with _ | ⟨v, vs⟩
      · simp [hf]
      · by_cases hv : v.fullscreen
        · simp [hf, hv]
        · simp [hf, hv]

lemma segPush_length_fs (u : DUnit) (gs : List (List DUnit)) (hf : u.fullscreen = true) :
    (segPush u gs).length = gs.length + 1 := by
  unfold segPush
  simp [hf]

lemma fs_le_segmentUnits (l : List DUnit) :
    (l.filter (fun u => u.fullscreen)).length ≤ (segmentUnits l).length := by
  induction l with
  | nil => simp [segmentUnits]
  | cons u rest ih =>
    have hseg : segmentUnits (u :: rest) = segPush u (segmentUnits rest) := rfl
    rw [hseg]
    by_cases hf : u.fullscreen
    · rw [segPush_length_fs u _ hf]
      simp only [List.filter, hf, List.length_cons]
      omega
    · have : (List.filter (fun u => u.fullscreen) (u :: rest)) =
          (List.filter (fun u => u.fullscreen) rest) := by
        simp [List.filter, hf]
      rw [this]
      exact le_trans ih (segPush_length_le u _)



lemma makeSlidesFrom_length (i : Nat) (gs : List (List DUnit)) :
    (makeSlidesFrom i gs).length = gs.length := by
  induction gs generalizing i with
  | nil => rfl
  | cons g gs ih => simp [makeSlidesFrom, ih]

lemma makeSlidesFrom_map_datasets (i : Nat) (gs : List (List DUnit)) :
    (makeSlidesFrom i gs).map Slide.datasets = gs.map (fun g => g.map DUnit.name) := by
  induction gs generalizing i with
  | nil => rfl
  | cons g gs ih => simp [makeSlidesFrom, ih]

lemma planUnits_perm (input : PartInput) : (planUnits input).Perm (unitsOf input) :=
  List.perm_insertionSort seqOrd (unitsOf input)

lemma planUnits_sorted (input : PartInput) : List.Sorted seqOrd (planUnits input) :=
  List.sorted_insertionSort seqOrd (unitsOf input)

lemma planGroups_flatten (input : PartInput) :
    (planGroups input).flatten = planUnits input :=
  segmentUnits_flatten (planUnits input)

lemma partitionPlan_success_branch (seed : Nat) (input : PartInput)
    (hs : (partitionPlan seed input).success = true) :
    (planGroups input).length < 10 ∧
      (partitionPlan seed input).slide_mappings = makeSlides (planGroups input) := by
  unfold partitionPlan at hs ⊢
  by_cases hlen : 10 ≤ (planGroups input).length
  · simp [hlen] at hs
  · simp [hlen]
    omega

lemma allowedSecondary_ne_nil (p : Axis) : allowedSecondary p ≠ [] := by
  cases p <;> simp [allowedSecondary]

lemma pick_mem (l : List Axis) (n : Nat) (hl : l ≠ []) : pick l n ∈ l := by
  unfold pick
  have hlen : 0 < l.length := List.length_pos.mpr hl
  have hmod : n % l.length < l.length := Nat.mod_lt _ hlen
  rw [List.getD_eq_getElem l Axis.vertical hmod]
  exact List.getElem_mem hmod

lemma chooseAxes_ok (seed : Nat) :
    axisPairOk (chooseAxes seed).1 (chooseAxes seed).2 = true := by
  simp only [chooseAxes, axisPairOk, decide_eq_true_eq]
  exact pick_mem _ _ (allowedSecondary_ne_nil _)

lemma partitionPlan_axes (seed : Nat) (input : PartInput) :
    (partitionPlan seed input).primary_axis = (chooseAxes seed).1 ∧
      (partitionPlan seed input).secondary_axis = (chooseAxes seed).2 := by
  unfold partitionPlan
  by_cases h : 10 ≤ (planGroups input).length <;> simp [h]

lemma extractLoop_state (kvs : List (String × JValue)) :
    ∀ (st : SessionState) (dc : Option JValue) (k : String), k ≠ "data" →
      (extractLoop st dc kvs).1 k =
        match lastVal kvs k with
        | some v => some v
        | none => st k := by
  induction kvs with
  | nil => intro st dc k hk; simp [extractLoop, lastVal]
  | cons p rest ih =>
    intro st dc k hk
    rcases p with ⟨q, v⟩
    by_cases hq : q = "data"
    · subst hq
      have hstep : extractLoop st dc (("data", v) :: rest) =
          extractLoop st (if v.isNull then none else some v) rest := by
        simp [extractLoop]
      rw [hstep, ih st _ k hk]
      rcases h : lastVal rest k with _ | w
      · have hqk : ("data" = k) = False := by
          simp
          intro hc
          exact hk hc.symm
        simp [lastVal, h, hqk]
      · simp [lastVal, h]
    · have hstep : extractLoop st dc ((q, v) :: rest) =
          extractLoop (stateSet st q v) dc rest := by
        simp [extractLoop, hq]
      rw [hstep, ih _ dc k hk]
      rcases h : lastVal rest k with _ | w
      · by_cases hqk : q = k
        · subst hqk
          simp [lastVal, h, stateSet]
        · have hkq : (k = q) = False := by
            simp
            intro hc
            exact hqk hc.symm
          simp [lastVal, h, stateSet, hqk, hkq]
      · simp [lastVal, h]

lemma extractLoop_snd (kvs : List (String × JValue)) :
    ∀ (st : SessionState) (dc : Option JValue),
      (extractLoop st dc kvs).2 =
        match lastVal kvs "data" with
        | some v => if v.isNull then none else some v
        | none => dc := by
  induction kvs with
  | nil => intro st dc; simp [extractLoop, lastVal]
  | cons p rest ih =>
    intro st dc
    rcases p with ⟨q, v⟩
    by_cases hq : q = "data"
    · subst hq
      have hstep : extractLoop st dc (("data", v) :: rest) =
          extractLoop st (if v.isNull then none else some v) rest := by
        simp [extractLoop]
      rw [hstep, ih]
      rcases h : lastVal rest "data" with _ | w
      · simp [lastVal, h]
      · simp [lastVal, h]
    · have hstep : extractLoop st dc ((q, v) :: rest) =
          extractLoop (stateSet st q v) dc rest := by
        simp [extractLoop, hq]
      rw [hstep, ih]
      rcases h : lastVal rest "data" with _ | w
      · simp [lastVal, h, hq]
      · simp [lastVal, h]

lemma extractLoop_dataContent (kvs : List (String × JValue)) (st : SessionState) :
    (extractLoop st none kvs).2 = dataContent kvs := by
  rw [extractLoop_snd kvs st none]
  unfold dataContent
  rcases h : lastVal kvs "data" with _ | w <;> simp

lemma callback_obj (parse : String → Option JValue) (st : SessionState)
    (req : LlmRequest) (last : MContent) (text : String)
    (kvs : List (String × JValue))
    (h1 : req.contents.getLast? = some last) (h2 : last.role = "user")
    (h3 : last.parts ≠ []) (h4 : firstText last.parts = some text)
    (h5 : parse text = some (JValue.obj kvs)) :
    extract_metadata_callback parse st req =
      match (extractLoop st none kvs).2 with
      | none => ⟨none, (extractLoop st none kvs).1, req⟩
      | some v =>
        ⟨none, (extractLoop st none kvs).1,
          setLast req ⟨"user", [⟨some (dumps v)⟩]⟩⟩ := by
  unfold extract_metadata_callback
  rw [h1]
  dsimp only
  rw [if_neg (by simp [h2, h3])]
  rw [h4]
  dsimp only
  rw [h5]

lemma callback_not_obj (parse : String → Option JValue) (st : SessionState)
    (req : LlmRequest) (last : MContent) (text : String)
    (h1 : req.contents.getLast? = some last) (h2 : last.role = "user")
    (h3 : last.parts ≠ []) (h4 : firstText last.parts = some text)
    (h5 : ∀ kvs, parse text ≠ some (JValue.obj kvs)) :
    extract_metadata_callback parse st req = ⟨none, st, req⟩ := by
  unfold extract_metadata_callback
  rw [h1]
  dsimp only
  rw [if_neg (by simp [h2, h3])]
  rw [h4]
  dsimp only
  rcases hp : parse text with _ | v
  · rfl
  · rcases v with _ | b | n | s | vs | kvs
    · rfl
    · rfl
    · rfl
    · rfl
    · rfl
    · exact absurd hp (h5 kvs)

lemma planGroups_names_flatten (input : PartInput) :
    (((planGroups input).map (fun g => g.map DUnit.name)).flatten) =
      (planUnits input).map DUnit.name := by
  rw [← List.map_flatten, planGroups_flatten]

/-- C1: for every valid input payload, a successfully returned Plan covers
the input exactly — the dataset keys (with index sub-keys for list elements)
listed across all slides of `slide_mappings` are a permutation of the unit
names derivable from the input, and no name appears in two slides (nor twice
in one slide).  Validity includes the derived unit names being distinct, as
they are for any JSON object's keys free of bracket collisions. -/
theorem partitioner_coverage (seed : Nat) (input : PartInput)
    (hn : ((unitsOf input).map DUnit.name).Nodup)
    (hs : (partitionPlan seed input).success = true) :
    (((partitionPlan seed input).slide_mappings.map Slide.datasets).flatten).Perm
        ((unitsOf input).map DUnit.name) ∧
      (((partitionPlan seed input).slide_mappings.map Slide.datasets).flatten).Nodup := by
  obtain ⟨hlen, hsl⟩ := partitionPlan_success_branch seed input hs
  rw [hsl]
  unfold makeSlides
  rw [makeSlidesFrom_map_datasets, planGroups_names_flatten]
  have hperm : ((planUnits input).map DUnit.name).Perm ((unitsOf input).map DUnit.name) :=
    (planUnits_perm input).map DUnit.name
  exact ⟨hperm, hperm.nodup_iff.mpr hn⟩

theorem partitioner_coverage_witness :
    (((partitionPlan 0 sampleInput).slide_mappings.map Slide.datasets).flatten).Perm
        ((unitsOf sampleInput).map DUnit.name) ∧
      (((partitionPlan 0 sampleInput).slide_mappings.map Slide.datasets).flatten).Nodup :=
  partitioner_coverage 0 sampleInput (by decide) (by decide)

/-- C2: every returned Plan has fewer than ten slides; and whenever the
fullscreen-singleton requirements alone already demand ten or more slides,
the partitioner returns a failed Plan — `success = false`, a populated
`error`, and zero slides — rather than a truncated plan. -/
theorem partitioner_capacity (seed : Nat) (input : PartInput) :
    (partitionPlan seed input).slide_mappings.length < 10 ∧
      (10 ≤ fullscreenCount input →
        (partitionPlan seed input).success = false ∧
          (partitionPlan seed input).error.isSome = true ∧
          (partitionPlan seed input).slide_mappings = []) := by
  constructor
  · unfold partitionPlan
    by_cases h : 10 ≤ (planGroups input).length
    · simp [h]
    · simp [h, makeSlides, makeSlidesFrom_length]
      omega
  · intro hfs
    have hperm : ((planUnits input).filter (fun u => u.fullscreen)).Perm
        ((unitsOf input).filter (fun u => u.fullscreen)) :=
      (planUnits_perm input).filter _
    have h1 : fullscreenCount input =
        ((planUnits input).filter (fun u => u.fullscreen)).length := by
      unfold fullscreenCount
      exact hperm.length_eq.symm
    have h2 : 10 ≤ (planGroups input).length := by
      have h3 := fs_le_segmentUnits (planUnits input)
      unfold planGroups
      omega
    unfold partitionPlan
    simp [h2]

theorem partitioner_capacity_witness :
    10 ≤ fullscreenCount overloadedInput ∧
      (partitionPlan 0 overloadedInput).success = false :=
  ⟨by decide, ((partitioner_capacity 0 overloadedInput).2 (by decide)).1⟩

/-- C3: in every successfully returned Plan the slides are exactly the
groups of `planGroups`, and within any group holding a fullscreen unit every
unit is fullscreen — a fullscreen unit never shares a slide with a
non-fullscreen unit. -/
theorem partitioner_fullscreen_isolation (seed : Nat) (input : PartInput)
    (hs : (partitionPlan seed input).success = true) :
    (partitionPlan seed input).slide_mappings = makeSlides (planGroups input) ∧
      ∀ g ∈ planGroups input,
        (∃ u ∈ g, u.fullscreen = true) → ∀ v ∈ g, v.fullscreen = true := by
  refine ⟨(partitionPlan_success_branch seed input hs).2, ?_⟩
  rintro g hg ⟨u, hu, huf⟩ v hv
  rcases segmentUnits_all_or (planUnits input) g hg with ⟨w, hw, hwf⟩ | hall
  · subst hw
    simp only [List.mem_singleton] at hu hv
    subst hu
    subst hv
    exact huf
  · exact absurd huf (by simp [hall u hu])

theorem partitioner_fullscreen_isolation_witness :
    (partitionPlan 0 sampleInput).slide_mappings = makeSlides (planGroups sampleInput) :=
  (partitioner_fullscreen_isolation 0 sampleInput (by decide)).1

/-- C5: in every successfully returned Plan, slides are the groups of
`planGroups` in order, and whenever a unit with sequence value `s1` sits in
the group at index `i` and a unit with sequence value `s2 > s1` sits in the
group at index `j`, then `i ≤ j` — lower sequence numbers never appear on a
later slide. -/
theorem partitioner_sequence_monotone (seed : Nat) (input : PartInput)
    (hs : (partitionPlan seed input).success = true)
    (i j : Nat) (hi : i < (planGroups input).length)
    (hj : j < (planGroups input).length) (u v : DUnit)
    (hu : u ∈ (planGroups input).get ⟨i, hi⟩)
    (hv : v ∈ (planGroups input).get ⟨j, hj⟩)
    (s1 s2 : Int) (h1 : u.seq = some s1) (h2 : v.seq = some s2)
    (hlt : s1 < s2) :
    (partitionPlan seed input).slide_mappings = makeSlides (planGroups input) ∧
      i ≤ j := by
  refine ⟨(partitionPlan_success_branch seed input hs).2, ?_⟩
  by_contra hij
  push_neg at hij
  have hpw : List.Pairwise seqOrd (planUnits input) := planUnits_sorted input
  rw [← planGroups_flatten input] at hpw
  have hpw2 := (List.pairwise_flatten.mp hpw).2
  have hrel := List.pairwise_iff_get.mp hpw2 ⟨j, hj⟩ ⟨i, hi⟩ hij
  have hvu : seqOrd v u := hrel v hv u hu
  unfold seqOrd keyLe at hvu
  rw [h1, h2] at hvu
  simp only [decide_eq_true_eq] at hvu
  omega

theorem partitioner_sequence_monotone_witness :
    (partitionPlan 0 sampleInput).slide_mappings = makeSlides (planGroups sampleInput) ∧
      (0 : Nat) ≤ 1 :=
  partitioner_sequence_monotone 0 sampleInput (by decide) 0 1 (by decide) (by decide)
    ⟨"intro", false, some 1⟩ ⟨"gallery", true, some 2⟩ (by decide) (by decide)
    1 2 rfl rfl (by decide)

/-- C4 fails on the source: the prompt's axis-consistency table allows a
horizontal primary axis to pair only with a vertical secondary axis, while
the claim's six-pair table additionally allows the pair
(horizontal, linear).  At that concrete pair the two tables disagree, and
the axis chooser picks vertical whenever the primary axis is horizontal. -/
theorem axis_table_mismatch :
    specTableAxisPairOk Axis.horizontal Axis.linear = true ∧
      axisPairOk Axis.horizontal Axis.linear = false ∧
      chooseAxes 1 = (Axis.horizontal, Axis.vertical) := by
  refine ⟨rfl, by decide, by decide⟩

/-- C4 (amended): every Plan returned by the partitioner carries an axis
pair drawn from the five pairs the source prompt allows — vertical pairs
with horizontal or linear, horizontal pairs with vertical only, linear pairs
with horizontal or vertical. -/
theorem partitioner_axis_pair_allowed (seed : Nat) (input : PartInput) :
    axisPairOk (partitionPlan seed input).primary_axis
        (partitionPlan seed input).secondary_axis = true := by
  obtain ⟨hp, hq⟩ := partitionPlan_axes seed input
  rw [hp, hq]
  exact chooseAxes_ok seed

/-- C9: when the required upstream state (the reduced data payload) is
absent at the point the core planning step runs, the step returns an error
plan — `success = false`, a populated `error`, no slides — and never
silently proceeds with the planning computation. -/
theorem core_missing_payload_errors (seed : Nat) :
    (corePlanningStep seed none).success = false ∧
      (corePlanningStep seed none).error.isSome = true ∧
      (corePlanningStep seed none).slide_mappings = [] :=
  ⟨rfl, rfl, rfl⟩

/-- C6: for a valid JSON-object input, the callback copies every top-level
member other than `"data"` verbatim into session state: afterwards the state
at any key `k ≠ "data"` holds the value of the last `k`-member of the parsed
object, and keys the object does not write keep their prior value — so a
second invocation writing the same key leaves the later write's value
(last-write-wins). -/
theorem metadata_copied_verbatim (parse : String → Option JValue)
    (st : SessionState) (req : LlmRequest) (last : MContent) (text : String)
    (kvs : List (String × JValue)) (k : String)
    (h1 : req.contents.getLast? = some last) (h2 : last.role = "user")
    (h3 : last.parts ≠ []) (h4 : firstText last.parts = some text)
    (h5 : parse text = some (JValue.obj kvs)) (hk : k ≠ "data") :
    (extract_metadata_callback parse st req).state k =
      match lastVal kvs k with
      | some v => some v
      | none => st k := by
  rw [callback_obj parse st req last text kvs h1 h2 h3 h4 h5]
  rcases hdc : (extractLoop st none kvs).2 with _ | v
  · dsimp only
    exact extractLoop_state kvs st none k hk
  · dsimp only
    exact extractLoop_state kvs st none k hk

theorem metadata_copied_verbatim_witness :
    (extract_metadata_callback sampleParse emptyState (reqWith "msg_obj")).state "theme" =
      some (JValue.str "dark") := by
  have h := metadata_copied_verbatim sampleParse emptyState (reqWith "msg_obj")
      ⟨"user", [⟨some "msg_obj"⟩]⟩ "msg_obj"
      [("theme", JValue.str "dark"), ("data", JValue.obj [("a", JValue.num 1)])] "theme"
      rfl rfl (by simp) rfl rfl (by decide)
  rw [h]
  rfl

/-- C7 fails on the code at the concrete input object with member
`"data": null`: the key `"data"` is present, yet the Python
`data_content is not None` test sees `None` (JSON `null` parses to it), so
the callback forwards the original message unmodified instead of forwarding
the value of `"data"` as the sole payload. -/
theorem data_null_not_forwarded :
    lastVal [("data", JValue.null)] "data" = some JValue.null ∧
      (extract_metadata_callback sampleParse emptyState
          (reqWith "msg_null_data")).request = reqWith "msg_null_data" ∧
      (extract_metadata_callback sampleParse emptyState
          (reqWith "msg_null_data")).request ≠
        setLast (reqWith "msg_null_data") ⟨"user", [⟨some (dumps JValue.null)⟩]⟩ :=
  ⟨rfl, rfl, by decide⟩

/-- C7 (amended): for a valid JSON-object input, if the reserved key
`"data"` is present with a non-null value, the callback replaces the last
user message with exactly that value, serialized, as the sole payload; if
`"data"` is absent — or present with value JSON `null`, which the source's
`is not None` test treats as absent — the original request is forwarded
unmodified. -/
theorem data_forwarding_amended (parse : String → Option JValue)
    (st : SessionState) (req : LlmRequest) (last : MContent) (text : String)
    (kvs : List (String × JValue))
    (h1 : req.contents.getLast? = some last) (h2 : last.role = "user")
    (h3 : last.parts ≠ []) (h4 : firstText last.parts = some text)
    (h5 : parse text = some (JValue.obj kvs)) :
    (∀ v, dataContent kvs = some v →
        (extract_metadata_callback parse st req).request =
          setLast req ⟨"user", [⟨some (dumps v)⟩]⟩) ∧
      (dataContent kvs = none →
        (extract_metadata_callback parse st req).request = req) := by
  rw [callback_obj parse st req last text kvs h1 h2 h3 h4 h5]
  constructor
  · intro v hv
    rw [← extractLoop_dataContent kvs st] at hv
    rw [hv]
  · intro hv
    rw [← extractLoop_dataContent kvs st] at hv
    rw [hv]

theorem data_forwarding_amended_witness :
    (extract_metadata_callback sampleParse emptyState (reqWith "msg_obj")).request =
      setLast (reqWith "msg_obj")
        ⟨"user", [⟨some (dumps (JValue.obj [("a", JValue.num 1)]))⟩]⟩ := by
  have h := data_forwarding_amended sampleParse emptyState (reqWith "msg_obj")
      ⟨"user", [⟨some "msg_obj"⟩]⟩ "msg_obj"
      [("theme", JValue.str "dark"), ("data", JValue.obj [("a", JValue.num 1)])]
      rfl rfl (by simp) rfl rfl
  exact h.1 (JValue.obj [("a", JValue.num 1)]) rfl

/-- C8: when the message text is not valid JSON (`parse` fails) or its top
level is not an object, the callback is a complete no-op — it writes
nothing into session state, leaves the request unmodified, and returns
normally with `None`. -/
theorem invalid_input_noop (parse : String → Option JValue)
    (st : SessionState) (req : LlmRequest) (last : MContent) (text : String)
    (h1 : req.contents.getLast? = some last) (h2 : last.role = "user")
    (h3 : last.parts ≠ []) (h4 : firstText last.parts = some text)
    (h5 : ∀ kvs, parse text ≠ some (JValue.obj kvs)) :
    extract_metadata_callback parse st req = ⟨none, st, req⟩ :=
  callback_not_obj parse st req last text h1 h2 h3 h4 h5

theorem invalid_input_noop_witness :
    extract_metadata_callback sampleParse emptyState (reqWith "msg_arr") =
      ⟨none, emptyState, reqWith "msg_arr"⟩ := by
  have h := invalid_input_noop sampleParse emptyState (reqWith "msg_arr")
      ⟨"user", [⟨some "msg_arr"⟩]⟩ "msg_arr" rfl rfl (by simp) rfl ?_
  · exact h
  · intro kvs hc
    rw [show sampleParse "msg_arr" = some (JValue.arr [JValue.num 1]) from rfl] at hc
    simp at hc

/-- C10: on every input the callback returns `None` — it never constructs
an `LlmResponse`, so the before-model callback never short-circuits the
downstream model call. -/
theorem callback_always_returns_none (parse : String → Option JValue)
    (st : SessionState) (req : LlmRequest) :
    (extract_metadata_callback parse st req).response = none := by
  unfold extract_metadata_callback
  rcases hlast : req.contents.getLast? with _ | last
  · rfl
  · dsimp only
    by_cases hcond : last.role ≠ "user" ∨ last.parts = []
    · rw [if_pos hcond]
    · rw [if_neg hcond]
      rcases ht : firstText last.parts with _ | text
      · rfl
      · dsimp only
        rcases hp : parse text with _ | v
        · rfl
        · rcases v with _ | b | n | s | vs | kvs
          · rfl
          · rfl
          · rfl
          · rfl
          · rfl
          · dsimp only
            rcases hdc : (extractLoop st none kvs).2 with _ | w
            · rfl
            · rfl
